import Mathlib

/-!
Verification of the camera gRPC client adapter (`components/camera/client.go`).

The development shallowly embeds the client's pure decision logic (format
dispatch in `Images`, mimetype negotiation in `Read`, properties/distortion
resolution, the projector check, one iteration of the stream-worker loop)
and its generation-scoped stream lifecycle (`Stream`/`Close` with the
`healthyClientCh` generation signal, the mutex, and the
`activeBackgroundWorkers` wait group) as a labelled transition system on
explicit client states, and proves the specified properties about them.
-/

namespace CameraClient

/-! ## Mimetype constants (values of `utils.MimeType...`) -/

def mimeTypeRawRGBA : String := "image/vnd.viam.rgba"

def mimeTypeRawDepth : String := "image/vnd.viam.dep"

def mimeTypeJPEG : String := "image/jpeg"

def mimeTypePNG : String := "image/png"

/-! ## Wire format enumeration (`pb.Format`, an open proto int enum) -/

def formatUnspecified : Nat := 0

def formatRawRGBA : Nat := 1

def formatRawDepth : Nat := 2

def formatJPEG : Nat := 3

def formatPNG : Nat := 4

/-- A decoded or lazily-held image on the client side (`image.Image` values
produced by the client): `lazy mime data` is `rimage.NewLazyEncodedImage(data, mime)`
(bytes plus a mimetype tag, no pixels decoded); `decoded` stands for an
eagerly decoded image produced by a codec. -/
inductive RdkImage
  | lazy (mime : String) (data : List Nat)
  | decoded (kind : String) (data : List Nat)
deriving DecidableEq, Repr

/-! ## `Images`: per-image format dispatch (client.go lines 203-223) -/

/-- One wire image of a `GetImagesResponse` (`pb.Image`): raw bytes, an open
integer format tag, and a source name. -/
structure WireImage where
  format : Nat
  image : List Nat
  sourceName : String
deriving DecidableEq, Repr

/-- The body of the `switch img.Format` in `Images` (client.go 206-221).
`sniff` stands for the external generic decoder `image.Decode`; it is a
parameter because the codec itself is an external collaborator.  The Go
variable `rdkImage` starts as a nil interface; a tag outside the five cases
leaves it nil, which we model as `none`.  Result `Except` mirrors the early
`return nil, ..., err` on a decode failure. -/
def imagesDecodeOne (sniff : List Nat → Except String RdkImage)
    (format : Nat) (data : List Nat) : Except String (Option RdkImage) :=
  if format = formatRawRGBA then .ok (some (.lazy mimeTypeRawRGBA data))
  else if format = formatRawDepth then .ok (some (.lazy mimeTypeRawDepth data))
  else if format = formatJPEG then .ok (some (.lazy mimeTypeJPEG data))
  else if format = formatPNG then .ok (some (.lazy mimeTypePNG data))
  else if format = formatUnspecified then
    match sniff data with
    | .ok img => .ok (some img)
    | .error e => .error e
  else .ok none

/-- The `for _, img := range resp.Images` loop of `Images` (client.go 203-223):
decode each image in order, stopping with the first error, otherwise pairing
each (possibly nil) image with its source name (`NamedImage`). -/
def imagesLoop (sniff : List Nat → Except String RdkImage) :
    List WireImage → Except String (List (Option RdkImage × String))
  | [] => .ok []
  | w :: rest =>
    match imagesDecodeOne sniff w.format w.image with
    | .error e => .error e
    | .ok img =>
      match imagesLoop sniff rest with
      | .error e => .error e
      | .ok tl => .ok ((img, w.sourceName) :: tl)

/-! ## `Read`: mimetype negotiation (client.go lines 79-110) -/

/-- Modelled from the spec: a mimetype optionally carries a "lazy" qualifier
(`utils.CheckLazyMIMEType` / `utils.WithLazyMIMEType` live in `rdk/utils`,
which is not under src/).  We represent a qualified mimetype as a base string
plus the lazy flag; `CheckLazyMIMEType` splits the qualifier off and
`WithLazyMIMEType` sets it. -/
structure MimeType where
  base : String
  isLazy : Bool
deriving DecidableEq, Repr

/-- `utils.CheckLazyMIMEType`: the stripped (eager) mimetype plus whether the
input carried the lazy qualifier.  Modelled from the spec (see `MimeType`). -/
def checkLazyMIMEType (m : MimeType) : MimeType × Bool :=
  ({ base := m.base, isLazy := false }, m.isLazy)

/-- `utils.WithLazyMIMEType`: qualify a mimetype lazy.  Modelled from the
spec (see `MimeType`). -/
def withLazyMIMEType (m : MimeType) : MimeType :=
  { m with isLazy := true }

/-- The mimetype bookkeeping of `Read` (client.go 82-105): strip the caller's
hint to `expectedType`; if the server's returned mimetype differs, keep it
(the mismatch is only logged), otherwise restore the caller's original hint;
finally force the lazy qualifier. -/
def readNegotiate (hint : MimeType) (respMime : MimeType) : MimeType :=
  let expectedType := (checkLazyMIMEType hint).1
  let negotiated := if respMime ≠ expectedType then respMime else hint
  withLazyMIMEType negotiated

/-- Modelled from the spec: `rimage.DecodeImage` (in `rdk/rimage`, not under
src/) wraps the bytes in a lazily-decodable container tagged with the base
mimetype when the mimetype carries the lazy qualifier — no pixel decode —
and otherwise eagerly decodes via the codec for that mimetype (`eager`,
abstracted as a parameter). -/
def decodeImage (eager : String → List Nat → Except String RdkImage)
    (data : List Nat) (mime : MimeType) : Except String RdkImage :=
  if mime.isLazy then .ok (.lazy mime.base data)
  else eager mime.base data

/-- `Read` after the RPC returned (client.go 95-110): propagate a transport
error, otherwise decode the payload under the negotiated mimetype. -/
def clientRead (eager : String → List Nat → Except String RdkImage)
    (hint : MimeType) (rpc : Except String (MimeType × List Nat)) :
    Except String RdkImage :=
  match rpc with
  | .error e => .error e
  | .ok (respMime, data) => decodeImage eager data (readNegotiate hint respMime)

/-! ## `Properties` and `Projector` (client.go lines 260-310) -/

/-- `transform.PinholeCameraIntrinsics` as populated by `Properties`
(client.go 284-291). -/
structure PinholeCameraIntrinsics where
  width : Int
  height : Int
  fx : Float
  fy : Float
  ppx : Float
  ppy : Float

/-- Wire intrinsics (`pb.IntrinsicParameters`). -/
structure WireIntrinsics where
  widthPx : Nat
  heightPx : Nat
  focalXPx : Float
  focalYPx : Float
  centerXPx : Float
  centerYPx : Float

/-- Wire distortion descriptor (`pb.DistortionParameters`). -/
structure WireDistortion where
  model : String
  parameters : List Float

/-- `pb.GetPropertiesResponse`. -/
structure GetPropertiesResponse where
  intrinsicParameters : Option WireIntrinsics
  mimeTypes : List String
  supportsPcd : Bool
  distortionParameters : Option WireDistortion

/-- A constructed distortion-model instance: the resolved model name together
with the parameters the constructor consumed. -/
structure Distorter where
  model : String
  parameters : List Float
deriving Repr

/-- The distortion-model registry: model name to constructor.  The registry
contents are pluggable, so they are a parameter. -/
def DistortionRegistry : Type :=
  String → Option (List Float → Except String Distorter)

/-- Modelled from the spec: `transform.NewDistorter` (in `rdk/rimage/transform`,
not under src/) resolves the model name against the registry — an unknown
name fails closed — and otherwise runs the registered constructor on the
supplied parameter list, which may itself reject malformed parameters. -/
def newDistorter (registry : DistortionRegistry) (model : String)
    (params : List Float) : Except String Distorter :=
  match registry model with
  | none => .error ("do not know how to parse distortion model of type " ++ model)
  | some ctor => ctor params

/-- The domain `Properties` struct; `zeroProperties` is Go's `Properties{}`. -/
structure Properties where
  supportsPCD : Bool
  intrinsicParams : Option PinholeCameraIntrinsics
  distortionParams : Option Distorter
  mimeTypes : List String

def zeroProperties : Properties :=
  { supportsPCD := false, intrinsicParams := none, distortionParams := none
    mimeTypes := [] }

/-- Intrinsics mapping of `Properties` (client.go 284-291). -/
def mapIntrinsics (i : WireIntrinsics) : PinholeCameraIntrinsics :=
  { width := Int.ofNat i.widthPx, height := Int.ofNat i.heightPx
    fx := i.focalXPx, fy := i.focalYPx, ppx := i.centerXPx, ppy := i.centerYPx }

/-- `Properties` (client.go 275-310), in Go's two-value return style
(`Properties` value, optional error): transport errors and distortion
resolution failures return the zero `Properties` with the error; an absent
descriptor or an empty model name short-circuits to success with no
distortion model. -/
def clientProperties (registry : DistortionRegistry)
    (rpc : Except String GetPropertiesResponse) : Properties × Option String :=
  match rpc with
  | .error e => (zeroProperties, some e)
  | .ok resp =>
    let result : Properties :=
      { supportsPCD := resp.supportsPcd
        intrinsicParams := resp.intrinsicParameters.map mapIntrinsics
        distortionParams := none
        mimeTypes := resp.mimeTypes }
    match resp.distortionParameters with
    | none => (result, none)
    | some dp =>
      if dp.model = "" then (result, none)
      else
        match newDistorter registry dp.model dp.parameters with
        | .error e => (zeroProperties, some e)
        | .ok d => ({ result with distortionParams := some d }, none)

/-- `Projector` (client.go 260-273): obtain `Properties`, then check the
intrinsics and return them as the projector.  `intrinsics.CheckValid` (in
`rdk/rimage/transform`, not under src/) is modelled from the spec: absent
intrinsics or intrinsics failing the validity check (`valid`, abstracted as
a parameter) produce an error only here, at projector-request time. -/
def clientProjector (valid : PinholeCameraIntrinsics → Bool)
    (registry : DistortionRegistry)
    (rpc : Except String GetPropertiesResponse) :
    Except String PinholeCameraIntrinsics :=
  match clientProperties registry rpc with
  | (_, some e) => .error e
  | (props, none) =>
    match props.intrinsicParams with
    | none => .error "pinhole camera intrinsics not defined"
    | some i => if valid i then .ok i else .error "invalid intrinsics"

/-! ## One iteration of the stream-worker loop (client.go lines 160-186) -/

/-- Which arm of the worker's three-way `select` fires. -/
inductive SelectBranch
  | ctxDone
  | healthyClosed
  | send
deriving DecidableEq, Repr

/-- Observable outcome of one pass through the worker loop body:
which handlers ran (with the error each received), what was sent on
`frameCh`, whether the loop returned, and whether the goroutine called
`stream.Close` (the `healthyClientCh` arm). -/
structure IterOutcome where
  handlerCalls : List (Nat × String)
  sent : Option (Option Nat × Option String)
  exits : Bool
  closedStream : Bool
deriving DecidableEq, Repr

/-- One iteration of the worker loop (client.go 160-186): check
`streamCtx.Err()` at the top; perform the `Read` (its result is the
`frame`/`err` input); on error invoke every registered handler in order;
then race the three select arms.  A branch may only be chosen when it is
ready (`ctxDoneAtSelect` / `healthyClosed`); the send arm is always
eligible once a consumer receives.  Choosing an unready branch is not a
behaviour of the code (`none`). -/
def workerIter (handlers : List Nat)
    (ctxErrAtTop ctxDoneAtSelect healthyClosed : Bool)
    (frame : Option Nat) (err : Option String) (branch : SelectBranch) :
    Option IterOutcome :=
  if ctxErrAtTop then
    some { handlerCalls := [], sent := none, exits := true, closedStream := false }
  else
    let calls := match err with
      | some e => handlers.map (fun h => (h, e))
      | none => []
    match branch with
    | .ctxDone =>
      if ctxDoneAtSelect then
        some { handlerCalls := calls, sent := none, exits := true, closedStream := false }
      else none
    | .healthyClosed =>
      if healthyClosed then
        some { handlerCalls := calls, sent := none, exits := true, closedStream := true }
      else none
    | .send =>
      some { handlerCalls := calls, sent := some (frame, err), exits := false
             closedStream := false }

/-! ## Generation-scoped stream lifecycle (client.go lines 113-190 and 320-330)

The concurrency core is embedded as a labelled transition system.  A state
records the fields of `client` relevant to the lifecycle: the current
`healthyClientCh` (generation signals are numbered; `cur` holds the live
one), which generations have been closed, the mutex owner, and the state of
every `Stream` call (the generation it captured, where its worker is in its
lifecycle, and whether the caller cancelled its context).  Each event is one
atomic step of the Go code; `step` is its (partial) semantics and a trace is
valid when `run` succeeds on it.  The `activeBackgroundWorkers` wait-group
counter equals the number of workers between `Add(1)` and `Done()`, i.e. the
number of streams in the `running` phase, so `Wait()` returning is the guard
`runningCount = 0`. -/

/-- Lifecycle phase of one `Stream` call: `created` is after the mutex-guarded
read of `healthyClientCh` (client.go 141-146) but before
`activeBackgroundWorkers.Add(1)` (line 151); `running` is after `Add(1)`
with the worker goroutine live; `finished` is after the worker's deferred
`close(frameCh)` and `Done()` (lines 157-158). -/
inductive Phase
  | created
  | running
  | finished
deriving DecidableEq, Repr

/-- Per-`Stream`-call state: the generation signal it captured, its phase,
and whether its caller-supplied context has been cancelled. -/
structure StreamSt where
  gen : Nat
  phase : Phase
  cancelled : Bool
deriving DecidableEq, Repr

/-- Phase of one `Close` call: `locked` is between acquiring `c.mu` (line
321) and the `close(c.healthyClientCh)` (line 325); `draining` is between the
close of the signal and `activeBackgroundWorkers.Wait()` returning;
`closeDone` is after `Close` returned (having nilled the channel and
released the mutex). -/
inductive ClosePhase
  | locked
  | draining
  | closeDone
deriving DecidableEq, Repr

/-- The lifecycle-relevant state of a `client` plus its in-flight `Stream`
and `Close` calls.  `cur` is `c.healthyClientCh` (generations are numbered
by `nextGen`); `closedGens` lists the generation signals whose channel has
been closed; `mutexOwner` is the `Close` call currently holding `c.mu`, if
any (`Stream`'s critical section is a single atomic event, so it never holds
the mutex across steps); `faulted` records that a Go runtime fault (a
double `close` of a channel) occurred. -/
structure ClientState where
  nextGen : Nat
  cur : Option Nat
  closedGens : List Nat
  mutexOwner : Option Nat
  streams : List (Nat × StreamSt)
  closes : List (Nat × ClosePhase)
  faulted : Bool
deriving DecidableEq, Repr

/-- Look up the value at the first occurrence of key `k` in an association
list. -/
def lookupA {β : Type} (k : Nat) : List (Nat × β) → Option β
  | [] => none
  | (k', v) :: rest => if k = k' then some v else lookupA k rest

/-- Replace the value at the first occurrence of key `k` in an association
list. -/
def setA {β : Type} (k : Nat) (v : β) : List (Nat × β) → List (Nat × β)
  | [] => []
  | (k', v') :: rest => if k' = k then (k, v) :: rest else (k', v') :: setA k v rest

/-- Number of workers between `Add(1)` and `Done()`: the value of the
`activeBackgroundWorkers` wait-group counter. -/
def runningCount (l : List (Nat × StreamSt)) : Nat :=
  l.countP (fun p => decide (p.2.phase = Phase.running))

/-- Atomic events of the lifecycle.  `streamStart s` is `Stream`'s
mutex-guarded section (client.go 141-146): read `c.healthyClientCh`,
creating it if nil, and capture it.  `streamAdd s` is
`c.activeBackgroundWorkers.Add(1)` plus the goroutine spawn and `Stream`
returning (lines 151-189) — note it runs after the mutex was released.
`cancel s` is the caller cancelling its context.  `publish s` is the
worker's select committing to the `frameCh <- ...` arm (line 180), which is
allowed whenever the worker is live: a closed `healthyClientCh` or a done
context makes other arms ready too, but `select` chooses among ready arms
nondeterministically.  `finish s viaClose` is the worker returning (via the
`healthyClientCh` arm when `viaClose`, requiring the captured generation to
be closed; via a context-done path otherwise, requiring cancellation) and
running its defers.  `closeLock c` acquires `c.mu` in `Close` (line 321);
`closeSignal c` is the `close(c.healthyClientCh)` guarded by the nil check
(lines 324-326), faulting on a double close; `closeFinish c` is
`activeBackgroundWorkers.Wait()` returning (guard: counter zero), nilling
the channel, releasing the mutex and returning (lines 327-329). -/
inductive Event
  | streamStart (s : Nat)
  | streamAdd (s : Nat)
  | cancel (s : Nat)
  | publish (s : Nat)
  | finish (s : Nat) (viaClose : Bool)
  | closeLock (c : Nat)
  | closeSignal (c : Nat)
  | closeFinish (c : Nat)
deriving DecidableEq, Repr

/-- One atomic step of the lifecycle; `none` means the event is not enabled
(not a behaviour of the code) in this state. -/
def step (st : ClientState) : Event → Option ClientState
  | .streamStart s =>
    if st.mutexOwner = none ∧ lookupA s st.streams = none then
      match st.cur with
      | none =>
        some { st with
               cur := some st.nextGen
               nextGen := st.nextGen + 1
               streams := (s, ⟨st.nextGen, .created, false⟩) :: st.streams }
      | some g =>
        some { st with streams := (s, ⟨g, .created, false⟩) :: st.streams }
    else none
  | .streamAdd s =>
    match lookupA s st.streams with
    | some ss =>
      if ss.phase = .created then
        some { st with streams := setA s { ss with phase := .running } st.streams }
      else none
    | none => none
  | .cancel s =>
    match lookupA s st.streams with
    | some ss =>
      some { st with streams := setA s { ss with cancelled := true } st.streams }
    | none => none
  | .publish s =>
    match lookupA s st.streams with
    | some ss => if ss.phase = .running then some st else none
    | none => none
  | .finish s viaClose =>
    match lookupA s st.streams with
    | some ss =>
      if ss.phase = .running ∧
          (if viaClose then ss.gen ∈ st.closedGens else ss.cancelled = true) then
        some { st with streams := setA s { ss with phase := .finished } st.streams }
      else none
    | none => none
  | .closeLock c =>
    if st.mutexOwner = none ∧ lookupA c st.closes = none then
      some { st with mutexOwner := some c, closes := (c, .locked) :: st.closes }
    else none
  | .closeSignal c =>
    if lookupA c st.closes = some .locked then
      match st.cur with
      | some g =>
        if g ∈ st.closedGens then
          some { st with faulted := true, closes := setA c .draining st.closes }
        else
          some { st with
                 closedGens := g :: st.closedGens
                 closes := setA c .draining st.closes }
      | none => some { st with closes := setA c .draining st.closes }
    else none
  | .closeFinish c =>
    if lookupA c st.closes = some .draining ∧ runningCount st.streams = 0 then
      some { st with
             cur := none
             mutexOwner := none
             closes := setA c .closeDone st.closes }
    else none

/-- Run a trace from a given state, failing if any event is not enabled. -/
def runFrom (st : ClientState) : List Event → Option ClientState
  | [] => some st
  | e :: es =>
    match step st e with
    | some st' => runFrom st' es
    | none => none

/-- The state of a freshly constructed client (`NewClientFromConn`):
no generation signal, no streams, no closes. -/
def initState : ClientState :=
  { nextGen := 0, cur := none, closedGens := [], mutexOwner := none
    streams := [], closes := [], faulted := false }

/-- A trace is valid iff `run` succeeds on it from the initial state. -/
def run (tr : List Event) : Option ClientState :=
  runFrom initState tr

/-! ## Association-list lemmas -/

theorem lookupA_setA_self {β : Type} {l : List (Nat × β)} {k : Nat} {w : β}
    (v : β) (h : lookupA k l = some w) : lookupA k (setA k v l) = some v := by
  induction l with
  | nil => simp [lookupA] at h
  | cons p rest ih =>
    obtain ⟨k', v'⟩ := p
    by_cases hk : k' = k
    · subst hk
      simp [setA, lookupA]
    · have hk' : k ≠ k' := fun hh => hk hh.symm
      simp only [lookupA, if_neg hk'] at h
      simp only [setA, if_neg hk, lookupA, if_neg hk']
      exact ih h

theorem lookupA_setA_ne {β : Type} (l : List (Nat × β)) {k k' : Nat}
    (v : β) (h : k' ≠ k) : lookupA k' (setA k v l) = lookupA k' l := by
  induction l with
  | nil => simp [setA]
  | cons p rest ih =>
    obtain ⟨k0, v0⟩ := p
    by_cases hk : k0 = k
    · subst hk
      simp only [setA, if_pos rfl, lookupA, if_neg h]
    · simp only [setA, if_neg hk, lookupA]
      by_cases h0 : k' = k0
      · simp [h0]
      · simp only [if_neg h0]
        exact ih

theorem lookupA_mem {β : Type} {l : List (Nat × β)} {k : Nat} {v : β}
    (h : lookupA k l = some v) : (k, v) ∈ l := by
  induction l with
  | nil => simp [lookupA] at h
  | cons p rest ih =>
    obtain ⟨k', v'⟩ := p
    by_cases hk : k = k'
    · subst hk
      simp [lookupA] at h
      subst h
      exact List.mem_cons_self _ _
    · simp only [lookupA, if_neg hk] at h
      exact List.mem_cons_of_mem _ (ih h)

/-! ## Phase monotonicity along steps -/

/-- Numeric rank of a stream phase: phases only ever advance. -/
def phaseRank : Phase → Nat
  | .created => 0
  | .running => 1
  | .finished => 2

theorem phaseRank_two {p : Phase} (h : 2 ≤ phaseRank p) : p = .finished := by
  cases p <;> simp [phaseRank] at h ⊢

theorem phaseRank_le_two (p : Phase) : phaseRank p ≤ 2 := by
  cases p <;> simp [phaseRank]

/-- Any enabled step keeps every existing stream present and never moves its
phase backwards. -/
theorem step_streams_mono {st st' : ClientState} {e : Event} {s : Nat}
    {ss : StreamSt} (h : step st e = some st')
    (hl : lookupA s st.streams = some ss) :
    ∃ ss', lookupA s st'.streams = some ss' ∧
      phaseRank ss.phase ≤ phaseRank ss'.phase := by
  cases e with
  | streamStart s0 =>
    simp only [step] at h
    by_cases hg : st.mutexOwner = none ∧ lookupA s0 st.streams = none
    · rw [if_pos hg] at h
      have hne : s ≠ s0 := by
        rintro rfl
        rw [hl] at hg
        exact Option.noConfusion hg.2
      cases hcur : st.cur with
      | none =>
        rw [hcur] at h
        cases h
        exact ⟨ss, by simp [lookupA, if_neg hne, hl], le_refl _⟩
      | some g =>
        rw [hcur] at h
        cases h
        exact ⟨ss, by simp [lookupA, if_neg hne, hl], le_refl _⟩
    · rw [if_neg hg] at h
      exact absurd h (by simp)
  | streamAdd s0 =>
    cases hl0 : lookupA s0 st.streams with
    | none => simp [step, hl0] at h
    | some ss0 =>
      by_cases hph : ss0.phase = .created
      · simp only [step, hl0, if_pos hph, Option.some.injEq] at h
        subst h
        by_cases hs : s = s0
        · subst hs
          rw [hl] at hl0
          cases hl0
          refine ⟨{ ss with phase := .running }, lookupA_setA_self _ hl, ?_⟩
          rw [hph]
          simp [phaseRank]
        · exact ⟨ss, by simp only [lookupA_setA_ne _ _ hs, hl], le_refl _⟩
      · simp [step, hl0, if_neg hph] at h
  | cancel s0 =>
    cases hl0 : lookupA s0 st.streams with
    | none => simp [step, hl0] at h
    | some ss0 =>
      simp only [step, hl0, Option.some.injEq] at h
      subst h
      by_cases hs : s = s0
      · subst hs
        rw [hl] at hl0
        cases hl0
        exact ⟨{ ss with cancelled := true }, lookupA_setA_self _ hl, le_refl _⟩
      · exact ⟨ss, by simp only [lookupA_setA_ne _ _ hs, hl], le_refl _⟩
  | publish s0 =>
    cases hl0 : lookupA s0 st.streams with
    | none => simp [step, hl0] at h
    | some ss0 =>
      by_cases hph : ss0.phase = .running
      · simp only [step, hl0, if_pos hph, Option.some.injEq] at h
        subst h
        exact ⟨ss, hl, le_refl _⟩
      · simp [step, hl0, if_neg hph] at h
  | finish s0 viaClose =>
    cases hl0 : lookupA s0 st.streams with
    | none => simp [step, hl0] at h
    | some ss0 =>
      by_cases hph : ss0.phase = .running ∧
          (if viaClose then ss0.gen ∈ st.closedGens else ss0.cancelled = true)
      · simp only [step, hl0, if_pos hph, Option.some.injEq] at h
        subst h
        by_cases hs : s = s0
        · subst hs
          rw [hl] at hl0
          cases hl0
          refine ⟨{ ss with phase := .finished }, lookupA_setA_self _ hl, ?_⟩
          exact phaseRank_le_two _
        · exact ⟨ss, by simp only [lookupA_setA_ne _ _ hs, hl], le_refl _⟩
      · simp [step, hl0, if_neg hph] at h
  | closeLock c =>
    by_cases hg : st.mutexOwner = none ∧ lookupA c st.closes = none
    · simp only [step, if_pos hg, Option.some.injEq] at h
      subst h
      exact ⟨ss, hl, le_refl _⟩
    · simp [step, if_neg hg] at h
  | closeSignal c =>
    by_cases hg : lookupA c st.closes = some .locked
    · cases hcur : st.cur with
      | none =>
        simp only [step, hg, if_pos, hcur, Option.some.injEq] at h
        subst h
        exact ⟨ss, hl, le_refl _⟩
      | some g =>
        by_cases hmem : g ∈ st.closedGens
        · simp only [step, hg, if_pos, hcur, if_pos hmem, Option.some.injEq] at h
          subst h
          exact ⟨ss, hl, le_refl _⟩
        · simp only [step, hg, if_pos, hcur, if_neg hmem, Option.some.injEq] at h
          subst h
          exact ⟨ss, hl, le_refl _⟩
    · simp [step, if_neg hg] at h
  | closeFinish c =>
    by_cases hg : lookupA c st.closes = some .draining ∧ runningCount st.streams = 0
    · simp only [step, if_pos hg, Option.some.injEq] at h
      subst h
      exact ⟨ss, hl, le_refl _⟩
    · simp [step, if_neg hg] at h

/-- Monotonicity lifted to whole traces. -/
theorem runFrom_streams_mono {tr : List Event} {st st' : ClientState} {s : Nat}
    {ss : StreamSt} (h : runFrom st tr = some st')
    (hl : lookupA s st.streams = some ss) :
    ∃ ss', lookupA s st'.streams = some ss' ∧
      phaseRank ss.phase ≤ phaseRank ss'.phase := by
  induction tr generalizing st ss with
  | nil =>
    simp only [runFrom] at h
    cases h
    exact ⟨ss, hl, le_refl _⟩
  | cons e rest ih =>
    simp only [runFrom] at h
    cases hstep : step st e with
    | none => rw [hstep] at h; exact absurd h (by simp)
    | some st1 =>
      rw [hstep] at h
      obtain ⟨ss1, hl1, hrank1⟩ := step_streams_mono hstep hl
      obtain ⟨ss', hl', hrank'⟩ := ih h hl1
      exact ⟨ss', hl', le_trans hrank1 hrank'⟩

theorem runFrom_append (st : ClientState) (xs ys : List Event) :
    runFrom st (xs ++ ys) = (runFrom st xs).bind (fun st' => runFrom st' ys) := by
  induction xs generalizing st with
  | nil => simp [runFrom]
  | cons e rest ih =>
    simp only [List.cons_append, runFrom]
    cases step st e with
    | none => simp
    | some st1 => simp [ih st1]

/-- A stream whose worker has finished never publishes again: `publish`
requires the `running` phase, and phases never move backwards. -/
theorem no_publish_of_finished {tr : List Event} {st : ClientState} {s : Nat}
    {ss : StreamSt} (hl : lookupA s st.streams = some ss)
    (hf : ss.phase = .finished) (h : runFrom st tr ≠ none) :
    Event.publish s ∉ tr := by
  induction tr generalizing st ss with
  | nil => simp
  | cons e rest ih =>
    simp only [runFrom] at h
    cases hstep : step st e with
    | none => rw [hstep] at h; exact absurd rfl h
    | some st1 =>
      rw [hstep] at h
      intro hmem
      rcases List.mem_cons.mp hmem with heq | hmem'
      · subst heq
        cases hl0 : lookupA s st.streams with
        | none => rw [hl] at hl0; exact Option.noConfusion hl0
        | some ss0 =>
          rw [hl] at hl0
          cases hl0
          have : ¬(ss.phase = .running) := by rw [hf]; intro hc; exact Phase.noConfusion hc
          simp [step, hl, if_neg this] at hstep
      · obtain ⟨ss1, hl1, hrank⟩ := step_streams_mono hstep hl
        have hf1 : ss1.phase = .finished := by
          apply phaseRank_two
          calc 2 = phaseRank ss.phase := by rw [hf]; rfl
          _ ≤ phaseRank ss1.phase := hrank
        exact ih hl1 hf1 h hmem'

/-- Only a `finish` event moves a stream into the `finished` phase. -/
theorem step_finished_origin {st st' : ClientState} {e : Event} {s : Nat}
    {ss' : StreamSt} (h : step st e = some st')
    (hl' : lookupA s st'.streams = some ss') (hf : ss'.phase = .finished) :
    (∃ ss, lookupA s st.streams = some ss ∧ ss.phase = .finished) ∨
      ∃ v, e = Event.finish s v := by
  cases e with
  | streamStart s0 =>
    left
    by_cases hg : st.mutexOwner = none ∧ lookupA s0 st.streams = none
    · rw [step, if_pos hg] at h
      by_cases hs : s = s0
      · subst hs
        cases hcur : st.cur with
        | none =>
          rw [hcur] at h
          cases h
          simp [lookupA] at hl'
          rw [← hl'] at hf
          exact absurd hf (by intro hc; exact Phase.noConfusion hc)
        | some g =>
          rw [hcur] at h
          cases h
          simp [lookupA] at hl'
          rw [← hl'] at hf
          exact absurd hf (by intro hc; exact Phase.noConfusion hc)
      · cases hcur : st.cur with
        | none =>
          rw [hcur] at h
          cases h
          simp only [lookupA, if_neg hs] at hl'
          exact ⟨ss', hl', hf⟩
        | some g =>
          rw [hcur] at h
          cases h
          simp only [lookupA, if_neg hs] at hl'
          exact ⟨ss', hl', hf⟩
    · rw [step, if_neg hg] at h
      exact absurd h (by simp)
  | streamAdd s0 =>
    left
    cases hl0 : lookupA s0 st.streams with
    | none => simp [step, hl0] at h
    | some ss0 =>
      by_cases hph : ss0.phase = .created
      · simp only [step, hl0, if_pos hph, Option.some.injEq] at h
        subst h
        by_cases hs : s = s0
        · subst hs
          rw [lookupA_setA_self _ hl0] at hl'
          cases hl'
          exact absurd hf (by intro hc; exact Phase.noConfusion hc)
        · rw [lookupA_setA_ne _ _ hs] at hl'
          exact ⟨ss', hl', hf⟩
      · simp [step, hl0, if_neg hph] at h
  | cancel s0 =>
    left
    cases hl0 : lookupA s0 st.streams with
    | none => simp [step, hl0] at h
    | some ss0 =>
      simp only [step, hl0, Option.some.injEq] at h
      subst h
      by_cases hs : s = s0
      · subst hs
        rw [lookupA_setA_self _ hl0] at hl'
        cases hl'
        exact ⟨ss0, hl0, hf⟩
      · rw [lookupA_setA_ne _ _ hs] at hl'
        exact ⟨ss', hl', hf⟩
  | publish s0 =>
    left
    cases hl0 : lookupA s0 st.streams with
    | none => simp [step, hl0] at h
    | some ss0 =>
      by_cases hph : ss0.phase = .running
      · simp only [step, hl0, if_pos hph, Option.some.injEq] at h
        subst h
        exact ⟨ss', hl', hf⟩
      · simp [step, hl0, if_neg hph] at h
  | finish s0 viaClose =>
    by_cases hs : s = s0
    · subst hs
      exact Or.inr ⟨viaClose, rfl⟩
    · left
      cases hl0 : lookupA s0 st.streams with
      | none => simp [step, hl0] at h
      | some ss0 =>
        by_cases hph : ss0.phase = .running ∧
            (if viaClose then ss0.gen ∈ st.closedGens else ss0.cancelled = true)
        · simp only [step, hl0, if_pos hph, Option.some.injEq] at h
          subst h
          rw [lookupA_setA_ne _ _ hs] at hl'
          exact ⟨ss', hl', hf⟩
        · simp [step, hl0, if_neg hph] at h
  | closeLock c =>
    left
    by_cases hg : st.mutexOwner = none ∧ lookupA c st.closes = none
    · simp only [step, if_pos hg, Option.some.injEq] at h
      subst h
      exact ⟨ss', hl', hf⟩
    · simp [step, if_neg hg] at h
  | closeSignal c =>
    left
    by_cases hg : lookupA c st.closes = some .locked
    · cases hcur : st.cur with
      | none =>
        simp only [step, hg, hcur, if_pos, Option.some.injEq] at h
        subst h
        exact ⟨ss', hl', hf⟩
      | some g =>
        by_cases hmem : g ∈ st.closedGens
        · simp only [step, hg, hcur, if_pos, if_pos hmem, Option.some.injEq] at h
          subst h
          exact ⟨ss', hl', hf⟩
        · simp only [step, hg, hcur, if_pos, if_neg hmem, Option.some.injEq] at h
          subst h
          exact ⟨ss', hl', hf⟩
    · simp [step, if_neg hg] at h
  | closeFinish c =>
    left
    by_cases hg : lookupA c st.closes = some .draining ∧ runningCount st.streams = 0
    · simp only [step, if_pos hg, Option.some.injEq] at h
      subst h
      exact ⟨ss', hl', hf⟩
    · simp [step, if_neg hg] at h

/-- If a stream is `finished` after running a trace, it was already finished
at the start or some `finish` event for it occurs in the trace. -/
theorem finished_origin {tr : List Event} {st0 st : ClientState} {s : Nat}
    {ss : StreamSt} (h : runFrom st0 tr = some st)
    (hl : lookupA s st.streams = some ss) (hf : ss.phase = .finished) :
    (∃ ss0, lookupA s st0.streams = some ss0 ∧ ss0.phase = .finished) ∨
      ∃ v, Event.finish s v ∈ tr := by
  induction tr generalizing st0 with
  | nil =>
    simp only [runFrom] at h
    cases h
    exact Or.inl ⟨ss, hl, hf⟩
  | cons e rest ih =>
    simp only [runFrom] at h
    cases hstep : step st0 e with
    | none => rw [hstep] at h; exact absurd h (by simp)
    | some st1 =>
      rw [hstep] at h
      rcases ih h with ⟨ss1, hl1, hf1⟩ | ⟨v, hv⟩
      · rcases step_finished_origin hstep hl1 hf1 with ⟨ss0, hl0, hf0⟩ | ⟨v, hv⟩
        · exact Or.inl ⟨ss0, hl0, hf0⟩
        · exact Or.inr ⟨v, by rw [hv]; exact List.mem_cons_self _ _⟩
      · exact Or.inr ⟨v, List.mem_cons_of_mem _ hv⟩

/-! ## Global invariant of reachable states -/

/-- Invariant of every reachable client state: only the `Close` call holding
the mutex can be mid-flight (`locked`/`draining`); the live generation signal
can only be closed while a `Close` is draining; generation numbers are
allocated fresh; and no double-close fault has occurred. -/
structure Inv (st : ClientState) : Prop where
  ownerActive : ∀ c p, lookupA c st.closes = some p → p ≠ .closeDone →
    st.mutexOwner = some c
  curClosedDraining : ∀ g, st.cur = some g → g ∈ st.closedGens →
    ∃ c, lookupA c st.closes = some .draining
  closedFresh : ∀ g, g ∈ st.closedGens → g < st.nextGen
  curFresh : ∀ g, st.cur = some g → g < st.nextGen
  noFault : st.faulted = false

/-- The invariant only mentions fields other than `streams`, so it transfers
across any step that changes `streams` alone. -/
theorem Inv.congr {st st' : ClientState} (inv : Inv st)
    (h1 : st'.closes = st.closes) (h2 : st'.mutexOwner = st.mutexOwner)
    (h3 : st'.cur = st.cur) (h4 : st'.closedGens = st.closedGens)
    (h5 : st'.nextGen = st.nextGen) (h6 : st'.faulted = st.faulted) :
    Inv st' := by
  constructor
  · intro c p hl hp
    rw [h1] at hl
    rw [h2]
    exact inv.ownerActive c p hl hp
  · intro g hg hmem
    rw [h3] at hg
    rw [h4] at hmem
    rw [h1]
    exact inv.curClosedDraining g hg hmem
  · intro g hmem
    rw [h4] at hmem
    rw [h5]
    exact inv.closedFresh g hmem
  · intro g hg
    rw [h3] at hg
    rw [h5]
    exact inv.curFresh g hg
  · rw [h6]
    exact inv.noFault

theorem step_inv {st st' : ClientState} {e : Event} (inv : Inv st)
    (h : step st e = some st') : Inv st' := by
  cases e with
  | streamStart s0 =>
    by_cases hg : st.mutexOwner = none ∧ lookupA s0 st.streams = none
    · cases hcur : st.cur with
      | none =>
        simp only [step, if_pos hg, hcur, Option.some.injEq] at h
        subst h
        constructor
        · intro c p hl hp
          exact inv.ownerActive c p hl hp
        · intro g hgeq hmem
          cases hgeq
          exact absurd (inv.closedFresh _ hmem) (lt_irrefl _)
        · intro g hmem
          exact Nat.lt_succ_of_lt (inv.closedFresh g hmem)
        · intro g hgeq
          cases hgeq
          exact Nat.lt_succ_self _
        · exact inv.noFault
      | some g0 =>
        simp only [step, if_pos hg, hcur, Option.some.injEq] at h
        subst h
        refine inv.congr rfl rfl ?_ rfl rfl rfl
        exact hcur.symm
    · simp [step, if_neg hg] at h
  | streamAdd s0 =>
    cases hl0 : lookupA s0 st.streams with
    | none => simp [step, hl0] at h
    | some ss0 =>
      by_cases hph : ss0.phase = .created
      · simp only [step, hl0, if_pos hph, Option.some.injEq] at h
        subst h
        exact inv.congr rfl rfl rfl rfl rfl rfl
      · simp [step, hl0, if_neg hph] at h
  | cancel s0 =>
    cases hl0 : lookupA s0 st.streams with
    | none => simp [step, hl0] at h
    | some ss0 =>
      simp only [step, hl0, Option.some.injEq] at h
      subst h
      exact inv.congr rfl rfl rfl rfl rfl rfl
  | publish s0 =>
    cases hl0 : lookupA s0 st.streams with
    | none => simp [step, hl0] at h
    | some ss0 =>
      by_cases hph : ss0.phase = .running
      · simp only [step, hl0, if_pos hph, Option.some.injEq] at h
        subst h
        exact inv
      · simp [step, hl0, if_neg hph] at h
  | finish s0 viaClose =>
    cases hl0 : lookupA s0 st.streams with
    | none => simp [step, hl0] at h
    | some ss0 =>
      by_cases hph : ss0.phase = .running ∧
          (if viaClose then ss0.gen ∈ st.closedGens else ss0.cancelled = true)
      · simp only [step, hl0, if_pos hph, Option.some.injEq] at h
        subst h
        exact inv.congr rfl rfl rfl rfl rfl rfl
      · simp [step, hl0, if_neg hph] at h
  | closeLock c =>
    by_cases hg : st.mutexOwner = none ∧ lookupA c st.closes = none
    · simp only [step, if_pos hg, Option.some.injEq] at h
      subst h
      constructor
      · intro c' p hl hp
        by_cases hc : c' = c
        · subst hc
          rfl
        · simp only [lookupA, if_neg hc] at hl
          have := inv.ownerActive c' p hl hp
          rw [hg.1] at this
          exact Option.noConfusion this
      · intro g hgeq hmem
        obtain ⟨c0, hdrain⟩ := inv.curClosedDraining g hgeq hmem
        have := inv.ownerActive c0 .draining hdrain (by decide)
        rw [hg.1] at this
        exact Option.noConfusion this
      · exact inv.closedFresh
      · exact inv.curFresh
      · exact inv.noFault
    · simp [step, if_neg hg] at h
  | closeSignal c =>
    by_cases hg : lookupA c st.closes = some .locked
    · have howner : st.mutexOwner = some c :=
        inv.ownerActive c .locked hg (by decide)
      cases hcur : st.cur with
      | none =>
        simp only [step, hg, hcur, if_pos, Option.some.injEq] at h
        subst h
        constructor
        · intro c' p hl hp
          by_cases hc : c' = c
          · subst hc
            rw [lookupA_setA_self _ hg] at hl
            rw [howner]
          · rw [lookupA_setA_ne _ _ hc] at hl
            exact inv.ownerActive c' p hl hp
        · intro g hgeq _
          exact Option.noConfusion hgeq
        · exact inv.closedFresh
        · intro g hgeq
          exact Option.noConfusion hgeq
        · exact inv.noFault
      | some g0 =>
        by_cases hmem : g0 ∈ st.closedGens
        · obtain ⟨c0, hdrain⟩ := inv.curClosedDraining g0 hcur hmem
          have h0 := inv.ownerActive c0 .draining hdrain (by decide)
          rw [howner] at h0
          cases h0
          rw [hg] at hdrain
          exact absurd hdrain (by simp)
        · simp only [step, hg, hcur, if_pos, if_neg hmem, Option.some.injEq] at h
          subst h
          constructor
          · intro c' p hl hp
            by_cases hc : c' = c
            · subst hc
              rw [lookupA_setA_self _ hg] at hl
              rw [howner]
            · rw [lookupA_setA_ne _ _ hc] at hl
              exact inv.ownerActive c' p hl hp
          · intro g hgeq hmem'
            exact ⟨c, lookupA_setA_self _ hg⟩
          · intro g hmem'
            rcases List.mem_cons.mp hmem' with heq | hmem''
            · subst heq
              exact inv.curFresh g hcur
            · exact inv.closedFresh g hmem''
          · intro g hgeq
            cases hgeq
            exact inv.curFresh g0 hcur
          · exact inv.noFault
    · simp [step, if_neg hg] at h
  | closeFinish c =>
    by_cases hg : lookupA c st.closes = some .draining ∧ runningCount st.streams = 0
    · have howner : st.mutexOwner = some c :=
        inv.ownerActive c .draining hg.1 (by decide)
      simp only [step, if_pos hg, Option.some.injEq] at h
      subst h
      constructor
      · intro c' p hl hp
        by_cases hc : c' = c
        · subst hc
          rw [lookupA_setA_self _ hg.1] at hl
          cases hl
          exact absurd rfl hp
        · rw [lookupA_setA_ne _ _ hc] at hl
          have := inv.ownerActive c' p hl hp
          rw [howner] at this
          cases this
          exact absurd rfl hc
      · intro g hgeq _
        exact Option.noConfusion hgeq
      · exact inv.closedFresh
      · intro g hgeq
        exact Option.noConfusion hgeq
      · exact inv.noFault
    · simp [step, if_neg hg] at h

theorem inv_initState : Inv initState := by
  constructor
  · intro c p hl _
    simp [initState, lookupA] at hl
  · intro g hg _
    simp [initState] at hg
  · intro g hg
    simp [initState] at hg
  · intro g hg
    simp [initState] at hg
  · rfl

theorem runFrom_inv {tr : List Event} {st st' : ClientState} (inv : Inv st)
    (h : runFrom st tr = some st') : Inv st' := by
  induction tr generalizing st with
  | nil =>
    simp only [runFrom] at h
    cases h
    exact inv
  | cons e rest ih =>
    simp only [runFrom] at h
    cases hstep : step st e with
    | none => rw [hstep] at h; exact absurd h (by simp)
    | some st1 =>
      rw [hstep] at h
      exact ih (step_inv inv hstep) h

theorem run_inv {tr : List Event} {st : ClientState} (h : run tr = some st) :
    Inv st :=
  runFrom_inv inv_initState h

/-! ## Claim theorems -/

/-- C1: In every valid execution, if a `Stream` call completed (its
`activeBackgroundWorkers.Add(1)` happened, which is before `Stream`
returns) before `Close` returned, then by the time that `Close` returns
(`closeFinish`) the stream's worker has terminated — a `finish` event for it
already occurred, so zero workers remain attached to the closed generation —
and no frame is ever delivered on that stream's channel afterwards.  This
holds in particular whenever the `Stream` call completed before `Close` was
even invoked. -/
theorem close_barrier (a b : List Event) (s c : Nat)
    (h : run (a ++ Event.closeFinish c :: b) ≠ none)
    (hadd : Event.streamAdd s ∈ a) :
    (∃ v, Event.finish s v ∈ a) ∧ Event.publish s ∉ b := by
  rw [run, runFrom_append] at h
  cases ha : runFrom initState a with
  | none => rw [ha] at h; exact absurd rfl h
  | some stA =>
    have haFull := ha
    rw [ha] at h
    simp only [Option.some_bind] at h
    rw [runFrom] at h
    cases hstep : step stA (Event.closeFinish c) with
    | none => rw [hstep] at h; exact absurd rfl h
    | some stB =>
      rw [hstep] at h
      by_cases hgd : lookupA c stA.closes = some .draining ∧
          runningCount stA.streams = 0
      · have hstreamsB : stB.streams = stA.streams := by
          simp only [step, if_pos hgd, Option.some.injEq] at hstep
          rw [← hstep]
        obtain ⟨a1, a2, rfl⟩ := List.append_of_mem hadd
        rw [runFrom_append] at ha
        cases ha1 : runFrom initState a1 with
        | none => rw [ha1] at ha; simp at ha
        | some st1 =>
          rw [ha1] at ha
          simp only [Option.some_bind] at ha
          rw [runFrom] at ha
          cases hstep1 : step st1 (Event.streamAdd s) with
          | none => rw [hstep1] at ha; simp at ha
          | some st2 =>
            rw [hstep1] at ha
            cases hl1 : lookupA s st1.streams with
            | none => simp [step, hl1] at hstep1
            | some ss1 =>
              by_cases hph1 : ss1.phase = .created
              · simp only [step, hl1, if_pos hph1, Option.some.injEq] at hstep1
                subst hstep1
                have hl2 : lookupA s
                    (setA s { ss1 with phase := .running } st1.streams) =
                    some { ss1 with phase := .running } :=
                  lookupA_setA_self _ hl1
                obtain ⟨ssA, hlA, hrank⟩ := runFrom_streams_mono ha hl2
                simp only [phaseRank] at hrank
                have hcount := hgd.2
                simp only [runningCount] at hcount
                have hnotrun : ¬(ssA.phase = .running) := by
                  intro hr
                  have hmem := lookupA_mem hlA
                  have hc := List.countP_eq_zero.mp hcount _ hmem
                  simp [hr] at hc
                have hfin : ssA.phase = .finished := by
                  cases hq : ssA.phase
                  · rw [hq] at hrank
                    simp [phaseRank] at hrank
                  · exact absurd hq hnotrun
                  · rfl
                refine ⟨?_, ?_⟩
                · rcases finished_origin haFull hlA hfin with ⟨ss0, hl0, _⟩ | hv
                  · simp [initState, lookupA] at hl0
                  · exact hv
                · have hlB : lookupA s stB.streams = some ssA := by
                    rw [hstreamsB]
                    exact hlA
                  exact no_publish_of_finished hlB hfin h
              · simp [step, hl1, if_neg hph1] at hstep1
      · simp [step, if_neg hgd] at hstep

/-- Events before a `Close` returns: a stream is started, its worker runs,
the caller cancels it and the worker exits; then a `Close` acquires the
mutex and closes the generation signal. -/
def c1TraceA : List Event :=
  [.streamStart 0, .streamAdd 0, .cancel 0, .finish 0 false,
   .closeLock 3, .closeSignal 3]

/-- Events after that `Close` returned: a fresh stream on the next
generation. -/
def c1TraceB : List Event :=
  [.streamStart 1, .streamAdd 1, .publish 1]

/-- Witness for C1 at a concrete execution: the trace is valid, stream 0's
`Add` happened before `closeFinish 3`, and the barrier conclusion holds. -/
theorem close_barrier_witness :
    run (c1TraceA ++ Event.closeFinish 3 :: c1TraceB) ≠ none ∧
    Event.streamAdd 0 ∈ c1TraceA ∧
    ((∃ v, Event.finish 0 v ∈ c1TraceA) ∧ Event.publish 0 ∉ c1TraceB) :=
  ⟨by decide, by decide, close_barrier c1TraceA c1TraceB 0 3 (by decide) (by decide)⟩

/-- The racy interleaving: `Stream` 0 reads the generation signal under the
mutex (`streamStart 0`), but before its `activeBackgroundWorkers.Add(1)`
runs, a full `Close` executes — it closes generation 0, finds the wait-group
counter at zero (the `Add` has not happened yet, because client.go line 151
runs after the mutex was released at line 146) and returns.  Only then does
`streamAdd 0` run, attaching a live worker to the already-closed generation
0, after which a new `Stream` creates generation 1 with its own worker, and
the generation-0 worker still publishes. -/
def overlapTrace : List Event :=
  [.streamStart 0, .closeLock 10, .closeSignal 10, .closeFinish 10,
   .streamAdd 0, .streamStart 1, .streamAdd 1, .publish 1, .publish 0]

/-- The state reached by `overlapTrace`. -/
def overlapEnd : ClientState :=
  { nextGen := 2, cur := some 1, closedGens := [0], mutexOwner := none
    streams := [(1, ⟨1, .running, false⟩), (0, ⟨0, .running, false⟩)]
    closes := [(10, .closeDone)], faulted := false }

/-- C2 (refuting the claimed generation isolation, which the code's own
comment at client.go lines 138-140 also asserts): `overlapTrace` is a valid
execution in which `Close` 10 has fully returned having closed generation 0,
yet stream 0's worker — attached to that closed generation and never waited
for — is still running and publishes a frame (the final event) after
generation 1 exists and generation 1's worker is also running.  The worker
neither joined the outgoing generation's drain nor the next generation. -/
theorem generation_overlap_reachable :
    run overlapTrace = some overlapEnd ∧
    lookupA 0 overlapEnd.streams = some ⟨0, .running, false⟩ ∧
    (0 : Nat) ∈ overlapEnd.closedGens ∧
    overlapEnd.cur = some 1 ∧
    lookupA 1 overlapEnd.streams = some ⟨1, .running, false⟩ ∧
    lookupA 10 overlapEnd.closes = some .closeDone := by
  decide

/-- C3: In every valid execution — including any number of sequential or
interleaved `Close` calls — the client never hits a double-close fault
(`Close` is idempotent: the nil check at client.go line 324 plus nilling the
channel at line 328 under the mutex make repeated closes safe), and once no
`Close` holds the mutex, a fresh `Stream` call obtains a live, non-closed
generation signal. -/
theorem close_idempotent_fresh_generation (tr : List Event) (st : ClientState)
    (s : Nat) (h : run tr = some st) (hm : st.mutexOwner = none)
    (hs : lookupA s st.streams = none) :
    st.faulted = false ∧
    ∃ st' g, step st (Event.streamStart s) = some st' ∧ st'.cur = some g ∧
      g ∉ st'.closedGens ∧
      lookupA s st'.streams = some ⟨g, .created, false⟩ := by
  have inv := run_inv h
  refine ⟨inv.noFault, ?_⟩
  have hguard : st.mutexOwner = none ∧ lookupA s st.streams = none := ⟨hm, hs⟩
  cases hcur : st.cur with
  | none =>
    refine ⟨{ st with
              cur := some st.nextGen
              nextGen := st.nextGen + 1
              streams := (s, ⟨st.nextGen, .created, false⟩) :: st.streams },
            st.nextGen, ?_, rfl, ?_, ?_⟩
    · simp only [step, if_pos hguard, hcur]
    · intro hmem
      exact absurd (inv.closedFresh _ hmem) (lt_irrefl _)
    · simp [lookupA]
  | some g =>
    refine ⟨{ st with streams := (s, ⟨g, .created, false⟩) :: st.streams },
            g, ?_, hcur, ?_, ?_⟩
    · simp only [step, if_pos hguard, hcur]
    · intro hmem
      obtain ⟨c0, hdrain⟩ := inv.curClosedDraining g hcur hmem
      have hown := inv.ownerActive c0 .draining hdrain (by decide)
      rw [hm] at hown
      exact Option.noConfusion hown
    · simp [lookupA]

/-- An execution with a stream that finished and two consecutive complete
`Close` calls (the second sees a nil signal and is a no-op). -/
def c3Trace : List Event :=
  [.streamStart 0, .streamAdd 0, .cancel 0, .finish 0 false,
   .closeLock 1, .closeSignal 1, .closeFinish 1,
   .closeLock 2, .closeSignal 2, .closeFinish 2]

/-- The state reached by `c3Trace`. -/
def c3End : ClientState :=
  { nextGen := 1, cur := none, closedGens := [0], mutexOwner := none
    streams := [(0, ⟨0, .finished, true⟩)]
    closes := [(2, .closeDone), (1, .closeDone)], faulted := false }

/-- Witness for C3 at a concrete execution with two complete `Close` calls:
no fault occurred and a subsequent `Stream` (id 5) gets a fresh, non-closed
generation. -/
theorem close_idempotent_fresh_generation_witness :
    run c3Trace = some c3End ∧ c3End.mutexOwner = none ∧
    lookupA 5 c3End.streams = none ∧
    (c3End.faulted = false ∧
      ∃ st' g, step c3End (Event.streamStart 5) = some st' ∧
        st'.cur = some g ∧ g ∉ st'.closedGens ∧
        lookupA 5 st'.streams = some ⟨g, .created, false⟩) :=
  ⟨by decide, by decide, by decide,
    close_idempotent_fresh_generation c3Trace c3End 5 (by decide) (by decide)
      (by decide)⟩

/-- A sniffing decoder that always fails, as `image.Decode` does on bytes of
undeterminable format. -/
def sniffFail : List Nat → Except String RdkImage :=
  fun _ => .error "image: unknown format"

/-- A sniffing decoder that recognizes every payload as PNG. -/
def sniffPNG : List Nat → Except String RdkImage :=
  fun d => .ok (.decoded "png" d)

/-- C4 counterexample: a `GetImages` response carrying format tag 99 —
outside the fixed enumeration — does NOT make `Images` fail.  The switch at
client.go 207-221 has no default case, so `rdkImage` remains nil and the nil
image is silently appended with its source name; the operation succeeds. -/
theorem images_unknown_tag_not_error :
    imagesLoop sniffFail [⟨99, [1, 2, 3], "cam1"⟩] = .ok [(none, "cam1")] := by
  rfl

/-- C4 (amended): for every format tag outside the enumeration {unspecified,
raw-RGBA, raw-depth, JPEG, PNG}, the dispatch is a silent default, not a
fail-closed error: it yields a nil image and `Images` succeeds, appending
the nil image with its source name. -/
theorem images_unknown_tag_silent (sniff : List Nat → Except String RdkImage)
    (fmt : Nat) (data : List Nat) (src : String)
    (h0 : fmt ≠ formatUnspecified) (h1 : fmt ≠ formatRawRGBA)
    (h2 : fmt ≠ formatRawDepth) (h3 : fmt ≠ formatJPEG)
    (h4 : fmt ≠ formatPNG) :
    imagesDecodeOne sniff fmt data = .ok none ∧
    imagesLoop sniff [⟨fmt, data, src⟩] = .ok [(none, src)] := by
  have hd : imagesDecodeOne sniff fmt data = .ok none := by
    simp [imagesDecodeOne, h0, h1, h2, h3, h4]
  exact ⟨hd, by simp [imagesLoop, hd]⟩

/-- Witness for the amended C4 at format tag 99. -/
theorem images_unknown_tag_silent_witness :
    (99 : Nat) ≠ formatUnspecified ∧ (99 : Nat) ≠ formatRawRGBA ∧
    (99 : Nat) ≠ formatRawDepth ∧ (99 : Nat) ≠ formatJPEG ∧
    (99 : Nat) ≠ formatPNG ∧
    (imagesDecodeOne sniffFail 99 [7] = .ok none ∧
      imagesLoop sniffFail [⟨99, [7], "c"⟩] = .ok [(none, "c")]) :=
  ⟨by decide, by decide, by decide, by decide, by decide,
    images_unknown_tag_silent sniffFail 99 [7] "c" (by decide) (by decide)
      (by decide) (by decide) (by decide)⟩

/-- An eager codec table that always fails; it is never consulted by the
paths under study, which witnesses that no eager decode happens. -/
def eagerFail : String → List Nat → Except String RdkImage :=
  fun m _ => .error ("no eager decode for " ++ m)

/-- C5 counterexample: the caller requests the eager (non-lazy) mimetype
"image/jpeg" and the server returns "image/png".  `Read` succeeds, but the
returned image is a lazily-encoded image tagged with the server's mimetype:
client.go line 105 unconditionally forces the lazy qualifier, and the
restore of the caller's original hint (line 102) happens only in the
matching branch — the caller's eager qualifier is not honoured. -/
theorem read_mismatch_eager_caller_gets_lazy :
    clientRead eagerFail ⟨"image/jpeg", false⟩
        (.ok (⟨"image/png", false⟩, [7, 8])) =
      .ok (.lazy "image/png" [7, 8]) ∧
    (⟨"image/jpeg", false⟩ : MimeType).isLazy = false := by
  exact ⟨rfl, rfl⟩

/-- C5 (amended): when the server's returned mimetype differs from the
requested one, `Read` still succeeds — the mismatch is only logged — but
the returned image is unconditionally a lazily-encoded image tagged with
the server's returned mimetype; the caller's original lazy/eager qualifier
is not restored on the mismatch path. -/
theorem read_mismatch_succeeds_lazy
    (eager : String → List Nat → Except String RdkImage)
    (hint respMime : MimeType) (data : List Nat)
    (h : respMime ≠ ⟨hint.base, false⟩) :
    clientRead eager hint (.ok (respMime, data)) =
      .ok (.lazy respMime.base data) := by
  simp [clientRead, readNegotiate, checkLazyMIMEType, withLazyMIMEType,
    decodeImage, h]

/-- Witness for the amended C5 at the jpeg-requested / png-returned pair. -/
theorem read_mismatch_succeeds_lazy_witness :
    (⟨"image/png", false⟩ : MimeType) ≠
      ⟨(⟨"image/jpeg", false⟩ : MimeType).base, false⟩ ∧
    clientRead eagerFail ⟨"image/jpeg", false⟩
        (.ok (⟨"image/png", false⟩, [9])) =
      .ok (.lazy "image/png" [9]) :=
  ⟨by decide,
    read_mismatch_succeeds_lazy eagerFail ⟨"image/jpeg", false⟩
      ⟨"image/png", false⟩ [9] (by decide)⟩

/-- C6: in any worker-loop iteration that reaches the `Read` (context not
cancelled at the top of the loop) and whose `Read` fails, every registered
error handler is invoked, in order, with that error; when the select
commits to the send arm the (frame-or-nil, error) pair is forwarded on the
value channel and the loop continues; the loop exits only through the
context-done or generation-closed arms; and when neither cancellation nor
generation closure is pending the pair is necessarily forwarded and the
loop continues — a `Read` error alone never terminates the stream. -/
theorem worker_error_forwarding (handlers : List Nat) (ctx2 hc : Bool)
    (frame : Option Nat) (e : String) (branch : SelectBranch)
    (out : IterOutcome)
    (h : workerIter handlers false ctx2 hc frame (some e) branch = some out) :
    out.handlerCalls = handlers.map (fun hdl => (hdl, e)) ∧
    (branch = .send → out.sent = some (frame, some e) ∧ out.exits = false) ∧
    (out.exits = true → ctx2 = true ∨ hc = true) ∧
    (ctx2 = false → hc = false →
      out.sent = some (frame, some e) ∧ out.exits = false) := by
  cases branch <;> cases ctx2 <;> cases hc <;>
    simp only [workerIter, Bool.false_eq_true, if_false, if_true,
      Option.some.injEq, reduceIte] at h <;>
    first
      | exact absurd h (by simp)
      | (subst h; refine ⟨rfl, ?_, ?_, ?_⟩ <;> intros <;> simp_all)

/-- The outcome of the witness iteration for C6. -/
def c6Out : IterOutcome :=
  { handlerCalls := [(1, "boom"), (2, "boom")]
    sent := some (some 42, some "boom"), exits := false, closedStream := false }

/-- Witness for C6: two handlers, a failing read with a stale frame, send
arm chosen. -/
theorem worker_error_forwarding_witness :
    workerIter [1, 2] false false false (some 42) (some "boom") .send =
      some c6Out ∧
    (c6Out.handlerCalls = [1, 2].map (fun hdl => (hdl, "boom")) ∧
      (SelectBranch.send = .send →
        c6Out.sent = some (some 42, some "boom") ∧ c6Out.exits = false) ∧
      (c6Out.exits = true → false = true ∨ false = true) ∧
      (false = false → false = false →
        c6Out.sent = some (some 42, some "boom") ∧ c6Out.exits = false)) :=
  ⟨by decide,
    worker_error_forwarding [1, 2] false false (some 42) "boom" .send c6Out
      (by decide)⟩

/-- C7: for each recognized tag in {raw-RGBA, raw-depth, JPEG, PNG} the
dispatch wraps the bytes in a lazily-encoded image tagged with the
corresponding mimetype, and the result is independent of the sniffing
decoder — no pixel decode occurs; for the unspecified tag it eagerly
consults the generic decoder, returning its image on success and failing
with its error when the format cannot be determined. -/
theorem images_recognized_lazy_unspecified_sniffed
    (sniff sniff' : List Nat → Except String RdkImage) (data : List Nat) :
    imagesDecodeOne sniff formatRawRGBA data =
      .ok (some (.lazy mimeTypeRawRGBA data)) ∧
    imagesDecodeOne sniff formatRawDepth data =
      .ok (some (.lazy mimeTypeRawDepth data)) ∧
    imagesDecodeOne sniff formatJPEG data =
      .ok (some (.lazy mimeTypeJPEG data)) ∧
    imagesDecodeOne sniff formatPNG data =
      .ok (some (.lazy mimeTypePNG data)) ∧
    (∀ fmt, fmt ≠ formatUnspecified →
      imagesDecodeOne sniff fmt data = imagesDecodeOne sniff' fmt data) ∧
    (∀ img, sniff data = .ok img →
      imagesDecodeOne sniff formatUnspecified data = .ok (some img)) ∧
    (∀ e, sniff data = .error e →
      imagesDecodeOne sniff formatUnspecified data = .error e) := by
  refine ⟨rfl, rfl, rfl, rfl, ?_, ?_, ?_⟩
  · intro fmt hfmt
    simp [imagesDecodeOne, hfmt]
  · intro img himg
    simp [imagesDecodeOne, formatUnspecified, formatRawRGBA, formatRawDepth,
      formatJPEG, formatPNG, himg]
  · intro e he
    simp [imagesDecodeOne, formatUnspecified, formatRawRGBA, formatRawDepth,
      formatJPEG, formatPNG, he]

/-- Witness for C7: a lazily wrapped JPEG, a sniffed unspecified payload,
and a failed sniff. -/
theorem images_recognized_lazy_unspecified_sniffed_witness :
    imagesDecodeOne sniffPNG formatJPEG [5] =
      .ok (some (.lazy mimeTypeJPEG [5])) ∧
    imagesDecodeOne sniffPNG formatUnspecified [5] =
      .ok (some (.decoded "png" [5])) ∧
    imagesDecodeOne sniffFail formatUnspecified [5] =
      .error "image: unknown format" :=
  ⟨(images_recognized_lazy_unspecified_sniffed sniffPNG sniffPNG [5]).2.2.1,
   (images_recognized_lazy_unspecified_sniffed sniffPNG sniffPNG
      [5]).2.2.2.2.2.1 _ rfl,
   (images_recognized_lazy_unspecified_sniffed sniffFail sniffFail
      [5]).2.2.2.2.2.2 _ rfl⟩

/-- The `Properties` value assembled before distortion handling (client.go
283-294): intrinsics mapped when present, mimetypes list and PCD flag
copied, no distortion model. -/
def mapBase (resp : GetPropertiesResponse) : Properties :=
  { supportsPCD := resp.supportsPcd
    intrinsicParams := resp.intrinsicParameters.map mapIntrinsics
    distortionParams := none
    mimeTypes := resp.mimeTypes }

/-- C8: distortion handling in `Properties`: an absent descriptor or an
empty model name yields success with no distortion model (not an error); a
non-empty model name is resolved against the registry, and `Properties`
fails exactly when `NewDistorter` fails — unknown name or parameters the
constructor rejects — otherwise storing the constructed instance. -/
theorem properties_distortion_resolution (registry : DistortionRegistry)
    (resp : GetPropertiesResponse) :
    (resp.distortionParameters = none →
      clientProperties registry (.ok resp) = (mapBase resp, none)) ∧
    (∀ dp, resp.distortionParameters = some dp → dp.model = "" →
      clientProperties registry (.ok resp) = (mapBase resp, none)) ∧
    (∀ dp e, resp.distortionParameters = some dp → dp.model ≠ "" →
      newDistorter registry dp.model dp.parameters = .error e →
      clientProperties registry (.ok resp) = (zeroProperties, some e)) ∧
    (∀ dp d, resp.distortionParameters = some dp → dp.model ≠ "" →
      newDistorter registry dp.model dp.parameters = .ok d →
      clientProperties registry (.ok resp) =
        ({ mapBase resp with distortionParams := some d }, none)) ∧
    (∀ dp, resp.distortionParameters = some dp → dp.model ≠ "" →
      registry dp.model = none →
      clientProperties registry (.ok resp) = (zeroProperties,
        some ("do not know how to parse distortion model of type " ++
          dp.model))) := by
  obtain ⟨ip, mts, pcd, dp⟩ := resp
  refine ⟨?_, ?_, ?_, ?_, ?_⟩
  · intro hdp
    cases hdp
    rfl
  · intro dp0 hdp hm
    cases hdp
    simp [clientProperties, hm, mapBase]
  · intro dp0 e hdp hm hnd
    cases hdp
    simp [clientProperties, hm, hnd]
  · intro dp0 d hdp hm hnd
    cases hdp
    simp [clientProperties, hm, hnd, mapBase]
  · intro dp0 hdp hm hreg
    cases hdp
    simp [clientProperties, hm, newDistorter, hreg]

/-- A registry knowing the single model name "known", whose constructor
accepts any parameter list. -/
def regW : DistortionRegistry :=
  fun name => if name = "known" then some (fun ps => .ok ⟨"known", ps⟩)
    else none

/-- A response with no distortion descriptor. -/
def respNoDist : GetPropertiesResponse :=
  ⟨none, ["image/jpeg"], true, none⟩

/-- A response naming an unknown distortion model. -/
def respUnknown : GetPropertiesResponse :=
  ⟨none, [], false, some ⟨"mystery", []⟩⟩

/-- A response naming the known distortion model. -/
def respKnown : GetPropertiesResponse :=
  ⟨none, [], false, some ⟨"known", []⟩⟩

/-- Witness for C8: success with no model, unknown-name failure, and a
constructed instance. -/
theorem properties_distortion_resolution_witness :
    clientProperties regW (.ok respNoDist) = (mapBase respNoDist, none) ∧
    clientProperties regW (.ok respUnknown) = (zeroProperties,
      some ("do not know how to parse distortion model of type " ++
        "mystery")) ∧
    clientProperties regW (.ok respKnown) =
      ({ mapBase respKnown with distortionParams := some ⟨"known", []⟩ },
        none) :=
  ⟨(properties_distortion_resolution regW respNoDist).1 rfl,
   (properties_distortion_resolution regW respUnknown).2.2.2.2 _ rfl
     (by decide) rfl,
   (properties_distortion_resolution regW respKnown).2.2.2.1 _ _ rfl
     (by decide) rfl⟩

/-- C9: `Properties` never validates intrinsics — its error component does
not depend on the intrinsics carried by the response at all — whereas
`Projector` raises the invalid-intrinsics error exactly at
projector-request time: absent or invalid resolved intrinsics make
`Projector` return an error instead of a projector, and valid intrinsics
are returned as the projector. -/
theorem projector_validates_intrinsics_late
    (valid : PinholeCameraIntrinsics → Bool) (registry : DistortionRegistry)
    (resp : GetPropertiesResponse) (wi : Option WireIntrinsics) :
    ((clientProperties registry
        (.ok { resp with intrinsicParameters := wi })).2 =
      (clientProperties registry (.ok resp)).2) ∧
    (∀ props, clientProperties registry (.ok resp) = (props, none) →
      props.intrinsicParams = none →
      clientProjector valid registry (.ok resp) =
        .error "pinhole camera intrinsics not defined") ∧
    (∀ props i, clientProperties registry (.ok resp) = (props, none) →
      props.intrinsicParams = some i → valid i = false →
      clientProjector valid registry (.ok resp) =
        .error "invalid intrinsics") ∧
    (∀ props i, clientProperties registry (.ok resp) = (props, none) →
      props.intrinsicParams = some i → valid i = true →
      clientProjector valid registry (.ok resp) = .ok i) := by
  obtain ⟨ip, mts, pcd, dp⟩ := resp
  refine ⟨?_, ?_, ?_, ?_⟩
  · cases dp with
    | none => rfl
    | some d =>
      by_cases hm : d.model = ""
      · simp [clientProperties, hm]
      · cases hnd : newDistorter registry d.model d.parameters <;>
          simp [clientProperties, hm, hnd]
  · intro props hp hnone
    simp [clientProjector, hp, hnone]
  · intro props i hp hi hv
    simp [clientProjector, hp, hi, hv]
  · intro props i hp hi hv
    simp [clientProjector, hp, hi, hv]

/-- A registry with no models at all. -/
def reg0 : DistortionRegistry := fun _ => none

/-- Concrete wire intrinsics. -/
def wi0 : WireIntrinsics := ⟨4, 3, 1.0, 1.0, 2.0, 1.5⟩

/-- A response carrying intrinsics and no distortion descriptor. -/
def respIntr : GetPropertiesResponse := ⟨some wi0, [], false, none⟩

/-- Witness for C9: absent intrinsics error, invalid-intrinsics error,
valid-intrinsics projector, and intrinsics-independence of the `Properties`
error component. -/
theorem projector_validates_intrinsics_late_witness :
    clientProjector (fun _ => true) reg0 (.ok respNoDist) =
      .error "pinhole camera intrinsics not defined" ∧
    clientProjector (fun _ => false) reg0 (.ok respIntr) =
      .error "invalid intrinsics" ∧
    clientProjector (fun _ => true) reg0 (.ok respIntr) =
      .ok (mapIntrinsics wi0) ∧
    ((clientProperties reg0
        (.ok { respNoDist with intrinsicParameters := some wi0 })).2 =
      (clientProperties reg0 (.ok respNoDist)).2) :=
  ⟨(projector_validates_intrinsics_late (fun _ => true) reg0 respNoDist
      none).2.1 (mapBase respNoDist) rfl rfl,
   (projector_validates_intrinsics_late (fun _ => false) reg0 respIntr
      none).2.2.1 (mapBase respIntr) (mapIntrinsics wi0) rfl rfl rfl,
   (projector_validates_intrinsics_late (fun _ => true) reg0 respIntr
      none).2.2.2 (mapBase respIntr) (mapIntrinsics wi0) rfl rfl rfl,
   (projector_validates_intrinsics_late (fun _ => true) reg0 respNoDist
      (some wi0)).1⟩

/-- C10: whenever `Properties` returns a non-nil error — a transport
failure, or a distortion-resolution failure occurring after the mimetypes
list, PCD flag and intrinsics were already mapped into the local result —
the accompanying value is the zero `Properties`: both error returns at
client.go lines 281 and 306 discard the partially populated result. -/
theorem properties_error_zero_value (registry : DistortionRegistry)
    (rpc : Except String GetPropertiesResponse) (e : String)
    (h : (clientProperties registry rpc).2 = some e) :
    (clientProperties registry rpc).1 = zeroProperties := by
  cases rpc with
  | error e0 => rfl
  | ok resp =>
    obtain ⟨ip, mts, pcd, dp⟩ := resp
    cases dp with
    | none => simp [clientProperties] at h
    | some d =>
      by_cases hm : d.model = ""
      · simp [clientProperties, hm] at h
      · cases hnd : newDistorter registry d.model d.parameters with
        | error e2 => simp [clientProperties, hm, hnd]
        | ok dist => simp [clientProperties, hm, hnd] at h

/-- Witness for C10: an unresolvable distortion model makes `Properties`
fail after intrinsics-free fields were mapped, and the returned value is
the zero `Properties`. -/
theorem properties_error_zero_value_witness :
    (clientProperties reg0 (.ok respUnknown)).2 =
      some ("do not know how to parse distortion model of type " ++
        "mystery") ∧
    (clientProperties reg0 (.ok respUnknown)).1 = zeroProperties :=
  ⟨rfl, properties_error_zero_value reg0 (.ok respUnknown) _ rfl⟩

end CameraClient
